import Mathlib

/-!
Verification of `measure-review-time` (src/index.ts), a single-file pipeline
that fetches merged pull requests, enriches each with review lead-time
metrics, filters release/labelled/unapproved records, and prints percentile
summaries.

The embedding models JavaScript numbers as `JNum` (an exact rational, or the
`NaN` sentinel produced by invalid-date arithmetic); comparisons involving
`NaN` are false and arithmetic on `NaN` yields `NaN`, as in JS.  Timestamps
are exact rationals (milliseconds since the epoch).
-/

namespace MeasureReviewTime

/-- A JavaScript number: either an exact rational value or `NaN`
(as produced by `new Date(undefined).getTime()` and arithmetic on it). -/
inductive JNum where
  | nan : JNum
  | num : ℚ → JNum
deriving DecidableEq, Repr

/-- JS subtraction: `NaN` propagates. -/
def jsub : JNum → JNum → JNum
  | .num a, .num b => .num (a - b)
  | _, _ => .nan

/-- JS addition: `NaN` propagates. -/
def jadd : JNum → JNum → JNum
  | .num a, .num b => .num (a + b)
  | _, _ => .nan

/-- JS multiplication by an (always-numeric) rational: `NaN` propagates. -/
def jmulc : JNum → ℚ → JNum
  | .num a, c => .num (a * c)
  | .nan, _ => .nan

/-- JS division by a nonzero rational constant: `NaN` propagates. -/
def jdivc : JNum → ℚ → JNum
  | .num a, c => .num (a / c)
  | .nan, _ => .nan

/-- JS strict `<`: any comparison involving `NaN` is false. -/
def jlt : JNum → JNum → Bool
  | .num a, .num b => decide (a < b)
  | _, _ => false

/-- JS strict `>`: any comparison involving `NaN` is false. -/
def jgt (a b : JNum) : Bool := jlt b a

/-- Rounding half away from zero, the convention of mathjs `round`
(its `toFixed` rounds the digit string of the absolute value half up and
reattaches the sign). -/
def roundHalfAway (q : ℚ) : ℤ :=
  if 0 ≤ q then ⌊q + 1/2⌋ else -⌊-q + 1/2⌋

/-- mathjs `round` lifted to JS numbers: `round(NaN)` is `NaN`. -/
def jround : JNum → JNum
  | .num q => .num ((roundHalfAway q : ℤ) : ℚ)
  | .nan => .nan

/-- `new Date(x ?? '').getTime()` on an optional timestamp: a missing
timestamp gives an invalid date whose time is `NaN`. -/
def jdate : Option ℚ → JNum
  | some t => .num t
  | none => .nan

/-- src/index.ts line 19: `(from, to) => round((to - from) / 1000 / 60)`. -/
def getLeadTimeMinutes (f t : JNum) : JNum :=
  jround (jdivc (jdivc (jsub t f) 1000) 60)

/-- ECMAScript `toFixed(1)` on an exact rational: the integer `n` for which
`n / 10` is closest to the value, the larger `n` on ties, rendered with
exactly one digit after the decimal point. -/
def toFixed1 (q : ℚ) : String :=
  let n := ⌊q * 10 + 1/2⌋
  (if n < 0 then "-" else "") ++ toString (n.natAbs / 10) ++ "." ++ toString (n.natAbs % 10)

/-- `toFixed(1)` lifted to JS numbers (`NaN.toFixed(1)` renders "NaN"). -/
def jToFixed1 : JNum → String
  | .nan => "NaN"
  | .num q => toFixed1 q

/-- Rendering of a JS number by string interpolation; only applied to
integer-valued results of `round` in the source. -/
def jnumToString : JNum → String
  | .nan => "NaN"
  | .num q => if q.den = 1 then toString q.num else toString q

/-- src/index.ts lines 22-27:
`min > 60 ? (min / 60 > 24 ? (min/60/24).toFixed(1)+'日' : (min/60).toFixed(1)+'時間') : round(min)+'分'`. -/
def minToTimeString (min : JNum) : String :=
  if jgt min (.num 60) then
    if jgt (jdivc min 60) (.num 24) then
      jToFixed1 (jdivc (jdivc min 60) 24) ++ "日"
    else
      jToFixed1 (jdivc min 60) ++ "時間"
  else
    jnumToString (jround min) ++ "分"

/-- The last character of a string, used to classify which unit suffix a
formatted duration carries. -/
def lastCharOf (s : String) : Option Char := s.data.getLast?

/-- A days-string: ends with the days unit `日`. -/
def isDaysString (s : String) : Prop := lastCharOf s = some '日'

/-- An hours-string: ends with the hours unit `時間`. -/
def isHoursString (s : String) : Prop := lastCharOf s = some '間'

/-- A minutes-string: ends with the minutes unit `分`. -/
def isMinutesString (s : String) : Prop := lastCharOf s = some '分'

/-! ## Data model

API payloads, as the source consumes them.  Optional fields mirror the
Octokit response types that the source guards with `?.` and `?? ''`. -/

/-- A pull request item from the search response: `pull.title`,
`pull.user?.login`, `pull.labels[].name` (possibly undefined) and
`pull.created_at` (always a valid timestamp). -/
structure Pull where
  title : String
  user_login : Option String
  labels : List (Option String)
  created_at : ℚ
deriving DecidableEq, Repr

/-- A review comment: `comment.user?.login` and `comment.created_at`
(optional in the response type, guarded by `?? ''` in the source). -/
structure Comment where
  user_login : Option String
  created_at : Option ℚ
deriving DecidableEq, Repr

/-- A formal review: `review.user?.login`, `review.state` and
`review.submitted_at` (optional in the response type, guarded by `?? ''`). -/
structure Review where
  user_login : Option String
  state : String
  submitted_at : Option ℚ
deriving DecidableEq, Repr

/-- An issue timeline event: `event.event` and `event.created_at`. -/
structure Event where
  event : String
  created_at : ℚ
deriving DecidableEq, Repr

/-- src/index.ts lines 8-17: the per-PR record produced by enrichment. -/
structure Result where
  title : String
  labels : List String
  createdDate : String
  reviewRequestedDate : String
  firstCommentedAt : JNum
  firstCommentLeadTime : JNum
  approvedDateTime : String
  approvedLeadTime : JNum
deriving DecidableEq, Repr

/-! ## The enrichment pipeline (src/index.ts lines 65-126) -/

/-- src/index.ts lines 65-67: `pull.labels.map(l => l.name).filter(l => !!l)`
— JS truthiness drops both undefined and empty-string names. -/
def labelsOf (pull : Pull) : List String :=
  pull.labels.filterMap (fun name =>
    match name with
    | some s => if s = "" then none else some s
    | none => none)

/-- src/index.ts lines 69-71:
`events.find(e => e.event === 'review_requested')?.created_at`. -/
def reviewRequestedAt (events : List Event) : Option ℚ :=
  (events.find? (fun e => e.event == "review_requested")).map Event.created_at

/-- The comparator of src/index.ts line 79,
`(a, b) => new Date(a).getTime() - new Date(b).getTime()`, as the strict
"sorts before" test: `a` goes before `b` when the comparator is negative. -/
def jsCmpLt (a b : JNum) : Bool := jlt (jsub a b) (.num 0)

/-- Stable insertion of one element under the JS comparator: the new element
is placed before the first element it compares strictly below. -/
def insertJS (a : JNum) : List JNum → List JNum
  | [] => [a]
  | b :: bs => if jsCmpLt a b then a :: b :: bs else b :: insertJS a bs

/-- `Array.prototype.sort` under the source's numeric comparator, modelled as
a stable insertion sort; on numeric (non-`NaN`) data this agrees with any
conforming JS sort. -/
def sortJS (l : List JNum) : List JNum := l.foldr insertJS []

/-- src/index.ts lines 72-79: the earliest timestamp among review comments
and formal reviews authored by someone other than the PR's author — the
source sorts the merged timestamp list and takes element `[0]`, which is
undefined (time `NaN`) when the list is empty. -/
def firstCommentedAt (pull : Pull) (comments : List Comment) (reviews : List Review) : JNum :=
  (sortJS
    ((comments.filter (fun c => c.user_login != pull.user_login)).map
        (fun c => jdate c.created_at)
      ++ (reviews.filter (fun r => r.user_login != pull.user_login)).map
        (fun r => jdate r.submitted_at))).headD .nan

/-- src/index.ts lines 81-86: use the review-request timestamp when it exists
and is strictly earlier than the first-response time, else the PR's creation
timestamp (the JS `<` against an undefined/`NaN` first-response time is
false). -/
def reviewStartedAt (pull : Pull) (events : List Event) (firstCommented : JNum) : ℚ :=
  match reviewRequestedAt events with
  | some t => if jlt (.num t) firstCommented then t else pull.created_at
  | none => pull.created_at

/-- src/index.ts lines 87-88:
`reviews.find(r => r.state === 'APPROVED')?.submitted_at`. -/
def approvedAt (reviews : List Review) : Option ℚ :=
  (reviews.find? (fun r => r.state == "APPROVED")).bind Review.submitted_at

/-- Models the external dayjs formatting collaborator (the spec treats
locale/date formatting as out of scope): a nonempty rendering of the
timestamp.  The pipeline only depends on these strings being nonempty
exactly when a timestamp is present. -/
def formatDateTime (t : ℚ) : String := "@" ++ toString t.num ++ "/" ++ toString t.den

/-- A flagged-slow-PR console line, src/index.ts line 111:
`console.log(pull.title, user, minToTimeString(approvedLeadTime))`. -/
structure FlaggedLine where
  title : String
  user : Option String
  approvedTime : String
deriving DecidableEq, Repr

/-- The outcome of enriching one pull request: the record pushed onto
`results`, and the flagged-slow-PR line if one was printed. -/
structure EnrichOut where
  result : Result
  flagged : Option FlaggedLine
deriving DecidableEq, Repr

/-- src/index.ts lines 65-126: enrichment of one pull request from its
review comments, formal reviews and timeline events. -/
def enrichPull (pull : Pull) (comments : List Comment) (reviews : List Review)
    (events : List Event) : EnrichOut :=
  let user := pull.user_login
  let labels := labelsOf pull
  let fc := firstCommentedAt pull comments reviews
  let rs := reviewStartedAt pull events fc
  let apAt := approvedAt reviews
  let createdDate := formatDateTime pull.created_at
  let reviewRequestedDate :=
    match reviewRequestedAt events with
    | some t => formatDateTime t
    | none => ""
  let approvedDateTime :=
    match apAt with
    | some t => formatDateTime t
    | none => ""
  let firstCommentLeadTime := getLeadTimeMinutes (.num rs) fc
  let approvedLeadTime :=
    match apAt with
    | some t => getLeadTimeMinutes (.num rs) (.num t)
    | none => .nan
  let flagged :=
    if jgt firstCommentLeadTime (.num (60 * 24 * 2)) then
      some { title := pull.title, user := user,
             approvedTime := minToTimeString approvedLeadTime }
    else none
  { result :=
      { title := pull.title
        labels := labels
        createdDate := createdDate
        reviewRequestedDate := reviewRequestedDate
        firstCommentedAt := fc
        firstCommentLeadTime := firstCommentLeadTime
        approvedDateTime := approvedDateTime
        approvedLeadTime := approvedLeadTime }
    flagged := flagged }

/-! ## Filter and report (src/index.ts lines 129-171) -/

/-- JS `String.prototype.toLowerCase`: every character mapped to its
lower-case form. -/
def jsToLowerCase (s : String) : String := String.mk (s.data.map Char.toLower)

/-- JS `String.prototype.startsWith` with a plain-string argument: the
argument's character sequence leads the receiver's. -/
def jsStartsWith (s pat : String) : Bool := pat.data.isPrefixOf s.data

/-- src/index.ts lines 129-136: keep a record unless its title starts with
`release` after lowercasing, its labels include `案件`, or its approval
display string is falsy (empty). -/
def keepResult (result : Result) : Bool :=
  if jsStartsWith (jsToLowerCase result.title) "release" then false
  else if result.labels.contains "案件" then false
  else !result.approvedDateTime.isEmpty

/-- JS `String.prototype.replace` with a plain-string pattern: replaces the
first occurrence only. -/
def jsReplaceFirst (s pat rep : String) : String :=
  match s.splitOn pat with
  | [] => s
  | [x] => x
  | x :: y :: rest => x ++ rep ++ String.intercalate pat (y :: rest)

/-- Models mathjs `quantileSeq` on a numeric sequence: sort ascending, take
the order statistic at index `prob * (n - 1)`, linearly interpolating
between the two neighbouring order statistics when the index is not an
integer. -/
def quantileSeq (data : List JNum) (prob : ℚ) : JNum :=
  let sorted := sortJS data
  let n := sorted.length
  if n = 0 then .nan
  else
    let idx : ℚ := prob * ((n : ℚ) - 1)
    let lo := ⌊idx⌋
    let frac := idx - (lo : ℚ)
    match sorted.get? lo.toNat, sorted.get? (lo.toNat + 1) with
    | some a, some b => jadd a (jmulc (jsub b a) frac)
    | some a, none => a
    | _, _ => .nan

/-- src/index.ts lines 142-146: the unconditional summary header
`\n${REPO}: ${RANGE_OF_DATE.replace('..','~')} (${results.length}件)`. -/
def headerLine (repo rangeOfDate : String) (count : Nat) : String :=
  "\n" ++ repo ++ ": " ++ jsReplaceFirst rangeOfDate ".." "~"
    ++ " (" ++ toString count ++ "件)"

/-- src/index.ts lines 147-157: the first-comment percentile block (one
`console.log` call; arguments are joined with single spaces). -/
def commentBlock (leadTimes : List JNum) : String :=
  "最初のコメントまでの時間\n" ++ " "
    ++ "  50パーセンタイル: " ++ minToTimeString (quantileSeq leadTimes (1/2)) ++ "\n" ++ " "
    ++ "  90パーセンタイル: " ++ minToTimeString (quantileSeq leadTimes (9/10))

/-- src/index.ts lines 158-168: the approval percentile block. -/
def approveBlock (leadTimes : List JNum) : String :=
  "Approve までの時間\n" ++ " "
    ++ "  50パーセンタイル: " ++ minToTimeString (quantileSeq leadTimes (1/2)) ++ "\n" ++ " "
    ++ "  90パーセンタイル: " ++ minToTimeString (quantileSeq leadTimes (9/10))

/-- src/index.ts line 170: the no-results message. -/
def noResultsLine : String := "結果が取得できませんでした"

/-- src/index.ts lines 138-171: the final report printed after filtering —
the header, then each percentile block whose sequence is nonempty, then the
no-results message when both sequences are empty.  One list entry per
`console.log` call. -/
def report (repo rangeOfDate : String) (results : List Result) : List String :=
  let firstCommentLeadTimes := results.map Result.firstCommentLeadTime
  let approvedLeadTimes := results.map Result.approvedLeadTime
  [headerLine repo rangeOfDate results.length]
    ++ (if firstCommentLeadTimes.length ≠ 0 then [commentBlock firstCommentLeadTimes] else [])
    ++ (if approvedLeadTimes.length ≠ 0 then [approveBlock approvedLeadTimes] else [])
    ++ (if firstCommentLeadTimes.length = 0 ∧ approvedLeadTimes.length = 0 then [noResultsLine]
        else [])

/-! ## Proof infrastructure: the sort specialised to numeric data -/

/-- `insertJS` specialised to plain rationals (the all-numeric case of the
JS comparator). -/
def insertQ (a : ℚ) : List ℚ → List ℚ
  | [] => [a]
  | b :: bs => if a - b < 0 then a :: b :: bs else b :: insertQ a bs

/-- `sortJS` specialised to plain rationals. -/
def sortQ (l : List ℚ) : List ℚ := l.foldr insertQ []

/-- Spec-side description for the first-response claim: the timestamps of
review comments and formal reviews authored by someone other than the PR's
author. -/
def externalResponseTimes (pull : Pull) (comments : List Comment)
    (reviews : List Review) : List ℚ :=
  (comments.filter (fun c => c.user_login != pull.user_login)).filterMap Comment.created_at
    ++ (reviews.filter (fun r => r.user_login != pull.user_login)).filterMap Review.submitted_at

/-! ## Sample data for concrete witnesses -/

/-- A pull request by author `a`, created at time 0. -/
def pullA : Pull := { title := "t", user_login := some "a", labels := [], created_at := 0 }

/-- A pull request by author `a`, created at time 100. -/
def pullB : Pull := { title := "t", user_login := some "a", labels := [], created_at := 100 }

/-- A review-request timeline event at time 1. -/
def eventReq : Event := { event := "review_requested", created_at := 1 }

/-- A non-author comment 2881 minutes (in milliseconds) after time 0. -/
def commentLate : Comment := { user_login := some "b", created_at := some 172860000 }

/-- A comment authored by the PR author themselves. -/
def commentSelf : Comment := { user_login := some "a", created_at := some 5 }

/-- A non-author comment at time 300000 ms. -/
def commentEarly : Comment := { user_login := some "b", created_at := some 300000 }

/-- A non-author APPROVED review submitted at time 120000 ms. -/
def reviewApproved : Review :=
  { user_login := some "b", state := "APPROVED", submitted_at := some 120000 }

/-- An APPROVED review whose `submitted_at` is absent. -/
def reviewApprovedNoTime : Review :=
  { user_login := some "b", state := "APPROVED", submitted_at := none }

/-! ## Helper lemmas -/

theorem enrichPull_result_firstCommentedAt (p : Pull) (cs : List Comment)
    (rvs : List Review) (es : List Event) :
    (enrichPull p cs rvs es).result.firstCommentedAt = firstCommentedAt p cs rvs := rfl

theorem enrichPull_result_firstCommentLeadTime (p : Pull) (cs : List Comment)
    (rvs : List Review) (es : List Event) :
    (enrichPull p cs rvs es).result.firstCommentLeadTime =
      getLeadTimeMinutes (.num (reviewStartedAt p es (firstCommentedAt p cs rvs)))
        (firstCommentedAt p cs rvs) := rfl

theorem enrichPull_result_approvedLeadTime (p : Pull) (cs : List Comment)
    (rvs : List Review) (es : List Event) :
    (enrichPull p cs rvs es).result.approvedLeadTime =
      match approvedAt rvs with
      | some t =>
          getLeadTimeMinutes (.num (reviewStartedAt p es (firstCommentedAt p cs rvs))) (.num t)
      | none => .nan := rfl

theorem enrichPull_flagged_eq (p : Pull) (cs : List Comment)
    (rvs : List Review) (es : List Event) :
    (enrichPull p cs rvs es).flagged =
      if jgt ((enrichPull p cs rvs es).result.firstCommentLeadTime) (.num (60 * 24 * 2)) then
        some { title := p.title, user := p.user_login,
               approvedTime := minToTimeString ((enrichPull p cs rvs es).result.approvedLeadTime) }
      else none := rfl

theorem jgt_num_iff (x : JNum) (c : ℚ) :
    jgt x (.num c) = true ↔ ∃ q, x = .num q ∧ c < q := by
  cases x <;> simp [jgt, jlt]

theorem lastCharOf_append_singleton (a : String) (c : Char) :
    lastCharOf (a ++ String.singleton c) = some c := by
  simp [lastCharOf, String.data_append, String.singleton]

theorem lastCharOf_append_day (a : String) : lastCharOf (a ++ "日") = some '日' := by
  simpa using lastCharOf_append_singleton a '日'

theorem lastCharOf_append_hours (a : String) : lastCharOf (a ++ "時間") = some '間' := by
  have hdata : ("時間" : String).data = ['時', '間'] := rfl
  simp [lastCharOf, String.data_append, hdata]

theorem lastCharOf_append_min (a : String) : lastCharOf (a ++ "分") = some '分' := by
  simpa using lastCharOf_append_singleton a '分'

/-! ## Claims about the time utilities -/

/-- C7: for every pair of millisecond timestamps `(from, to)` with
`to ≥ from`, `getLeadTimeMinutes` returns exactly
`round((to - from) / 60000)` minutes (the source divides by 1000 and then
by 60), and that value is non-negative. -/
theorem getLeadTimeMinutes_spec (f t : ℚ) (h : f ≤ t) :
    getLeadTimeMinutes (.num f) (.num t) =
      .num ((roundHalfAway ((t - f) / 60000) : ℤ) : ℚ) ∧
    (0 : ℤ) ≤ roundHalfAway ((t - f) / 60000) := by
  have heq : (t - f) / 1000 / 60 = (t - f) / 60000 := by ring
  refine ⟨?_, ?_⟩
  · simp [getLeadTimeMinutes, jsub, jdivc, jround, heq]
  · have h0 : (0 : ℚ) ≤ (t - f) / 60000 := by
      apply div_nonneg (by linarith) (by norm_num)
    rw [roundHalfAway, if_pos h0]
    exact Int.le_floor.mpr (by push_cast; linarith)

theorem getLeadTimeMinutes_spec_witness :
    getLeadTimeMinutes (.num 0) (.num 90000) =
      .num ((roundHalfAway ((90000 - 0) / 60000) : ℤ) : ℚ) ∧
    (0 : ℤ) ≤ roundHalfAway ((90000 - 0) / 60000) :=
  getLeadTimeMinutes_spec 0 90000 (by norm_num)

/-- C6: `minToTimeString` yields a days-string exactly when `m > 1440`
minutes, an hours-string exactly when `60 < m ≤ 1440`, and a minutes-string
otherwise; the days and hours strings carry the `toFixed(1)` one-decimal
rendering of the converted value and the minutes string carries the value
rounded to an integer. -/
theorem minToTimeString_spec (m : ℚ) :
    (isDaysString (minToTimeString (.num m)) ↔ 1440 < m) ∧
    (isHoursString (minToTimeString (.num m)) ↔ 60 < m ∧ m ≤ 1440) ∧
    (isMinutesString (minToTimeString (.num m)) ↔ m ≤ 60) ∧
    (1440 < m → minToTimeString (.num m) = toFixed1 (m / 60 / 24) ++ "日") ∧
    (60 < m → m ≤ 1440 → minToTimeString (.num m) = toFixed1 (m / 60) ++ "時間") ∧
    (m ≤ 60 → minToTimeString (.num m) = toString (roundHalfAway m) ++ "分") := by
  by_cases h60 : 60 < m
  · by_cases h24 : 24 < m / 60
    · have h1440 : 1440 < m := by
        rw [lt_div_iff₀ (by norm_num : (0:ℚ) < 60)] at h24
        linarith
      have hs : minToTimeString (.num m) = toFixed1 (m / 60 / 24) ++ "日" := by
        simp [minToTimeString, jgt, jlt, jdivc, jToFixed1, h60, h24]
      refine ⟨?_, ?_, ?_, fun _ => hs, fun _ h => absurd h1440 (not_lt.mpr h),
        fun h => absurd h (not_le.mpr h60)⟩
      · exact iff_of_true (by rw [hs, isDaysString, lastCharOf_append_day]) h1440
      · exact iff_of_false (by rw [hs, isHoursString, lastCharOf_append_day]; simp)
          (fun h => absurd h1440 (not_lt.mpr h.2))
      · exact iff_of_false (by rw [hs, isMinutesString, lastCharOf_append_day]; simp)
          (not_le.mpr h60)
    · have h1440 : m ≤ 1440 := by
        rw [not_lt, div_le_iff₀ (by norm_num : (0:ℚ) < 60)] at h24
        linarith
      have hs : minToTimeString (.num m) = toFixed1 (m / 60) ++ "時間" := by
        simp [minToTimeString, jgt, jlt, jdivc, jToFixed1, h60, h24]
      refine ⟨?_, ?_, ?_, fun h => absurd h (not_lt.mpr h1440), fun _ _ => hs,
        fun h => absurd h (not_le.mpr h60)⟩
      · exact iff_of_false (by rw [hs, isDaysString, lastCharOf_append_hours]; simp)
          (not_lt.mpr h1440)
      · exact iff_of_true (by rw [hs, isHoursString, lastCharOf_append_hours]) ⟨h60, h1440⟩
      · exact iff_of_false (by rw [hs, isMinutesString, lastCharOf_append_hours]; simp)
          (not_le.mpr h60)
  · have hm : m ≤ 60 := not_lt.mp h60
    have hs : minToTimeString (.num m) = toString (roundHalfAway m) ++ "分" := by
      simp [minToTimeString, jgt, jlt, jround, jnumToString, h60,
        Rat.den_intCast, Rat.num_intCast]
    refine ⟨?_, ?_, ?_, fun h => absurd h (not_lt.mpr (hm.trans (by norm_num))),
      fun h => absurd h h60, fun _ => hs⟩
    · exact iff_of_false (by rw [hs, isDaysString, lastCharOf_append_min]; simp)
        (not_lt.mpr (hm.trans (by norm_num)))
    · exact iff_of_false (by rw [hs, isHoursString, lastCharOf_append_min]; simp)
        (fun h => absurd h.1 h60)
    · exact iff_of_true (by rw [hs, isMinutesString, lastCharOf_append_min]) hm

theorem minToTimeString_spec_witness :
    isDaysString (minToTimeString (.num 2000)) ∧
    minToTimeString (.num 2000) = toFixed1 (2000 / 60 / 24) ++ "日" :=
  ⟨((minToTimeString_spec 2000).1).mpr (by norm_num),
   ((minToTimeString_spec 2000).2.2.2.1) (by norm_num)⟩

/-- C8: the percentile computation used in the final report interpolates
linearly between order statistics: on the fixture sequence
`[10, 20, 30, 40]` the 50th percentile is exactly 25 and the 90th
percentile is exactly 37. -/
theorem quantileSeq_fixture :
    quantileSeq [.num 10, .num 20, .num 30, .num 40] (1/2) = .num 25 ∧
    quantileSeq [.num 10, .num 20, .num 30, .num 40] (9/10) = .num 37 := by
  have hsort : sortJS [JNum.num 10, JNum.num 20, JNum.num 30, JNum.num 40] =
      [JNum.num 10, JNum.num 20, JNum.num 30, JNum.num 40] := by
    norm_num [sortJS, insertJS, jsCmpLt, jsub, jlt]
  constructor <;>
    · simp only [quantileSeq, hsort]
      norm_num [jadd, jmulc, jsub, show Int.toNat 1 = 1 from rfl,
        show Int.toNat 2 = 2 from rfl]

/-! ## Claims about the filter step -/

/-- C2: a record survives the filter iff its lowercased title does not
start with `release`, its labels do not include `案件`, and its approval
display string is nonempty; in particular a record titled "Release 1.2" is
always dropped. -/
theorem results_filter_spec (results : List Result) (r : Result) :
    (r ∈ results.filter keepResult ↔
        r ∈ results ∧
          ¬(jsStartsWith (jsToLowerCase r.title) "release" = true ∨ "案件" ∈ r.labels ∨
              r.approvedDateTime = "")) ∧
    (r.title = "Release 1.2" → r ∉ results.filter keepResult) := by
  have hcontains : r.labels.contains "案件" = true ↔ "案件" ∈ r.labels := List.elem_iff
  have hempty : r.approvedDateTime.isEmpty = false ↔ ¬r.approvedDateTime = "" := by
    rw [← String.isEmpty_iff]
    cases r.approvedDateTime.isEmpty <;> simp
  have hkeep : keepResult r = true ↔
      ¬(jsStartsWith (jsToLowerCase r.title) "release" = true ∨ "案件" ∈ r.labels ∨
          r.approvedDateTime = "") := by
    unfold keepResult
    by_cases h1 : jsStartsWith (jsToLowerCase r.title) "release" = true
    · simp [h1]
    · by_cases h2 : r.labels.contains "案件" = true
      · simp [h1, h2, hcontains.mp h2]
      · have h2' : ¬"案件" ∈ r.labels := fun hm => h2 (hcontains.mpr hm)
        simp [h1, h2, h2', hempty]
  refine ⟨by rw [List.mem_filter, hkeep], ?_⟩
  intro ht hmem
  rcases List.mem_filter.mp hmem with ⟨-, hk⟩
  exact (hkeep.mp hk) (Or.inl (by rw [ht]; decide))

/-- A release-titled sample record used to witness the filter claim. -/
def releaseRecord : Result :=
  { title := "Release 1.2", labels := [], createdDate := "", reviewRequestedDate := ""
    firstCommentedAt := .nan, firstCommentLeadTime := .nan
    approvedDateTime := "x", approvedLeadTime := .nan }

theorem results_filter_spec_witness :
    releaseRecord ∉ [releaseRecord].filter keepResult :=
  (results_filter_spec [releaseRecord] releaseRecord).2 rfl

/-! ## Claims about the final report -/

/-- C9 counterexample: with zero surviving records the final output is not
exactly the no-results message — the summary header (repo, date range,
count) is printed unconditionally before it. -/
theorem report_empty_counterexample :
    report "repo" "0101..0131" [] ≠ [noResultsLine] := by decide

/-- C9 (amended): with zero surviving records the final output is exactly
the summary header followed by the no-results message; no percentile lines
are printed. -/
theorem report_empty_spec (repo rangeOfDate : String) :
    report repo rangeOfDate [] = [headerLine repo rangeOfDate 0, noResultsLine] := rfl

/-! ## Claims about the enrichment step -/

/-- C1: the review-start timestamp is the review-request event timestamp
when such an event exists and its timestamp is strictly earlier than the
(numeric) first non-author response timestamp; in every other case —
no event, response not later, or an invalid (`NaN`) response time — it is
the pull request's creation timestamp. -/
theorem reviewStartedAt_spec (p : Pull) (events : List Event) (fc : JNum) :
    (∀ t, reviewRequestedAt events = some t →
      (∀ s, fc = .num s →
        (t < s → reviewStartedAt p events fc = t) ∧
        (¬t < s → reviewStartedAt p events fc = p.created_at)) ∧
      (fc = .nan → reviewStartedAt p events fc = p.created_at)) ∧
    (reviewRequestedAt events = none → reviewStartedAt p events fc = p.created_at) := by
  refine ⟨fun t ht => ⟨fun s hs => ⟨fun hlt => ?_, fun hge => ?_⟩, fun hnan => ?_⟩,
    fun hnone => ?_⟩
  · simp [reviewStartedAt, ht, hs, jlt, hlt]
  · simp [reviewStartedAt, ht, hs, jlt, hge]
  · simp [reviewStartedAt, ht, hnan, jlt]
  · simp [reviewStartedAt, hnone]

theorem reviewStartedAt_spec_witness :
    reviewStartedAt pullB [eventReq] (.num 3) = 1 ∧
    reviewStartedAt pullB [eventReq] (.num 0) = pullB.created_at ∧
    reviewStartedAt pullB [] (.num 3) = pullB.created_at :=
  ⟨(((reviewStartedAt_spec pullB [eventReq] (.num 3)).1 1
        (by simp [reviewRequestedAt, eventReq])).1 3 rfl).1 (by norm_num),
   (((reviewStartedAt_spec pullB [eventReq] (.num 0)).1 1
        (by simp [reviewRequestedAt, eventReq])).1 0 rfl).2 (by norm_num),
   (reviewStartedAt_spec pullB [] (.num 3)).2 rfl⟩

/-- C3: the enrichment step emits a flagged-slow-PR line exactly when the
PR's first-comment lead time is a number strictly greater than
2880 minutes (= 60·24·2, two days), and the line carries the PR title, its
author and the formatted approval lead time. -/
theorem flagged_slow_pr_spec (p : Pull) (cs : List Comment) (rvs : List Review)
    (es : List Event) :
    ((enrichPull p cs rvs es).flagged.isSome = true ↔
      ∃ q, (enrichPull p cs rvs es).result.firstCommentLeadTime = .num q ∧ 2880 < q) ∧
    (∀ line, (enrichPull p cs rvs es).flagged = some line →
      line = { title := p.title, user := p.user_login,
               approvedTime := minToTimeString ((enrichPull p cs rvs es).result.approvedLeadTime) }) := by
  have hflag : (enrichPull p cs rvs es).flagged =
      if jgt ((enrichPull p cs rvs es).result.firstCommentLeadTime) (.num 2880) then
        some { title := p.title, user := p.user_login,
               approvedTime := minToTimeString ((enrichPull p cs rvs es).result.approvedLeadTime) }
      else none := by
    rw [enrichPull_flagged_eq]
    norm_num
  cases hgt : jgt ((enrichPull p cs rvs es).result.firstCommentLeadTime) (.num 2880) with
  | false =>
    constructor
    · rw [hflag, hgt]
      simp only [Bool.false_eq_true, if_false, Option.isSome_none]
      constructor
      · intro h
        cases h
      · intro h
        have h2 := (jgt_num_iff ((enrichPull p cs rvs es).result.firstCommentLeadTime) 2880).mpr h
        rw [hgt] at h2
        cases h2
    · intro line hline
      rw [hflag, hgt] at hline
      simp at hline
  | true =>
    constructor
    · rw [hflag, hgt]
      simp only [if_true, Option.isSome_some, true_iff]
      exact (jgt_num_iff _ 2880).mp hgt
    · intro line hline
      rw [hflag, hgt] at hline
      simp only [if_true, Option.some.injEq] at hline
      exact hline.symm

/-- C10: a pull request with no non-author comment and no non-author formal
review has `NaN` first-response and first-comment lead times, the strict
comparison of `NaN` against the 2880-minute threshold is false, and no
flagged-slow-PR line is printed. -/
theorem no_external_response_no_flag (p : Pull) (cs : List Comment) (rvs : List Review)
    (es : List Event)
    (hc : ∀ c ∈ cs, c.user_login = p.user_login)
    (hr : ∀ r ∈ rvs, r.user_login = p.user_login) :
    (enrichPull p cs rvs es).result.firstCommentedAt = .nan ∧
    (enrichPull p cs rvs es).result.firstCommentLeadTime = .nan ∧
    jgt JNum.nan (.num 2880) = false ∧
    (enrichPull p cs rvs es).flagged = none := by
  have hcf : cs.filter (fun c => c.user_login != p.user_login) = [] :=
    List.filter_eq_nil_iff.mpr (fun c hcm => by simp [hc c hcm])
  have hrf : rvs.filter (fun r => r.user_login != p.user_login) = [] :=
    List.filter_eq_nil_iff.mpr (fun r hrm => by simp [hr r hrm])
  have hfc : firstCommentedAt p cs rvs = .nan := by
    simp [firstCommentedAt, hcf, hrf, sortJS]
  have hlead : (enrichPull p cs rvs es).result.firstCommentLeadTime = .nan := by
    rw [enrichPull_result_firstCommentLeadTime, hfc]
    rfl
  refine ⟨by rw [enrichPull_result_firstCommentedAt, hfc], hlead, rfl, ?_⟩
  rw [enrichPull_flagged_eq, hlead]
  rfl

theorem no_external_response_no_flag_witness :
    (enrichPull pullA [commentSelf] [] []).result.firstCommentedAt = .nan ∧
    (enrichPull pullA [commentSelf] [] []).result.firstCommentLeadTime = .nan ∧
    jgt JNum.nan (.num 2880) = false ∧
    (enrichPull pullA [commentSelf] [] []).flagged = none :=
  no_external_response_no_flag pullA [commentSelf] [] []
    (by intro c hcm; simp at hcm; rw [hcm]; rfl) (by intro r hrm; simp at hrm)

/-- C4 counterexample: an APPROVED formal review exists, yet the approved
lead time is the `NaN` sentinel, because that review's `submitted_at` is
absent (the source reads `find(...)?.submitted_at`). -/
theorem approvedLeadTime_counterexample :
    (∃ r ∈ [reviewApprovedNoTime], r.state = "APPROVED") ∧
    (enrichPull pullA [] [reviewApprovedNoTime] []).result.approvedLeadTime = .nan := by
  refine ⟨⟨reviewApprovedNoTime, List.mem_singleton_self _, rfl⟩, ?_⟩
  rw [enrichPull_result_approvedLeadTime]
  rfl

/-- C4 (amended): the approved lead time is the `NaN` sentinel iff the
first APPROVED review in returned order is absent or lacks a submitted
timestamp; when that review carries timestamp `t`, the approved lead time
is the rounded minutes from the review-start timestamp to `t`. -/
theorem approvedLeadTime_spec (p : Pull) (cs : List Comment) (rvs : List Review)
    (es : List Event) :
    (approvedAt rvs = none ↔
      rvs.find? (fun r => r.state == "APPROVED") = none ∨
        ∃ r, rvs.find? (fun r => r.state == "APPROVED") = some r ∧ r.submitted_at = none) ∧
    ((enrichPull p cs rvs es).result.approvedLeadTime = .nan ↔ approvedAt rvs = none) ∧
    (∀ t, approvedAt rvs = some t →
      (enrichPull p cs rvs es).result.approvedLeadTime =
        .num ((roundHalfAway
          ((t - reviewStartedAt p es (firstCommentedAt p cs rvs)) / 60000) : ℤ) : ℚ)) := by
  refine ⟨?_, ?_, ?_⟩
  · unfold approvedAt
    cases hf : rvs.find? (fun r => r.state == "APPROVED") with
    | none => simp
    | some r => cases hs : r.submitted_at <;> simp [hs]
  · rw [enrichPull_result_approvedLeadTime]
    cases ha : approvedAt rvs with
    | none => simp
    | some t =>
      simp only [reduceCtorEq, iff_false]
      intro h
      exact absurd h (by simp [getLeadTimeMinutes, jsub, jdivc, jround])
  · intro t ha
    rw [enrichPull_result_approvedLeadTime, ha]
    have hq : (t - reviewStartedAt p es (firstCommentedAt p cs rvs)) / 1000 / 60 =
        (t - reviewStartedAt p es (firstCommentedAt p cs rvs)) / 60000 := by ring
    simp [getLeadTimeMinutes, jsub, jdivc, jround, hq]

theorem approvedLeadTime_spec_witness :
    (enrichPull pullA [] [reviewApproved] []).result.approvedLeadTime =
      .num ((roundHalfAway
        ((120000 - reviewStartedAt pullA [] (firstCommentedAt pullA [] [reviewApproved]))
          / 60000) : ℤ) : ℚ) :=
  (approvedLeadTime_spec pullA [] [reviewApproved] []).2.2 120000
    (by simp [approvedAt, reviewApproved])

theorem flagged_slow_pr_spec_witness :
    (enrichPull pullA [commentLate] [] []).flagged.isSome = true ∧
    ({ title := "t", user := some "a", approvedTime := "NaN分" } : FlaggedLine) =
      { title := pullA.title, user := pullA.user_login,
        approvedTime := minToTimeString ((enrichPull pullA [commentLate] [] []).result.approvedLeadTime) } := by
  have hfc : firstCommentedAt pullA [commentLate] [] = .num 172860000 := by
    simp [firstCommentedAt, pullA, commentLate, sortJS, insertJS, jdate]
  have hrs : reviewStartedAt pullA [] (.num 172860000) = 0 := by
    simp [reviewStartedAt, reviewRequestedAt, pullA]
  have hlead : (enrichPull pullA [commentLate] [] []).result.firstCommentLeadTime =
      .num 2881 := by
    rw [enrichPull_result_firstCommentLeadTime, hfc, hrs]
    norm_num [getLeadTimeMinutes, jsub, jdivc, jround, roundHalfAway]
  have hapnan : (enrichPull pullA [commentLate] [] []).result.approvedLeadTime = .nan := by
    rw [enrichPull_result_approvedLeadTime]
    rfl
  have hnan : minToTimeString .nan = "NaN分" := rfl
  have hflag : (enrichPull pullA [commentLate] [] []).flagged =
      some { title := "t", user := some "a", approvedTime := "NaN分" } := by
    rw [enrichPull_flagged_eq, hlead, hapnan]
    norm_num [jgt, jlt, pullA, hnan]
  exact ⟨(flagged_slow_pr_spec pullA [commentLate] [] []).1.mpr ⟨2881, hlead, by norm_num⟩,
    (flagged_slow_pr_spec pullA [commentLate] [] []).2 _ hflag⟩

/-! ## The sort model and the first-response claim -/

theorem insertJS_map_num (a : ℚ) (l : List ℚ) :
    insertJS (.num a) (l.map JNum.num) = (insertQ a l).map JNum.num := by
  induction l with
  | nil => rfl
  | cons b bs ih =>
    simp only [List.map_cons, insertJS, insertQ, jsCmpLt, jsub, jlt]
    by_cases h : a - b < 0
    · simp [h]
    · simp [h, ih]

theorem sortJS_map_num (l : List ℚ) :
    sortJS (l.map JNum.num) = (sortQ l).map JNum.num := by
  induction l with
  | nil => rfl
  | cons a bs ih =>
    simp only [List.map_cons, sortJS, List.foldr_cons]
    rw [show List.foldr insertJS [] (bs.map JNum.num) = sortJS (bs.map JNum.num) from rfl, ih,
      insertJS_map_num]
    rfl

theorem sortQ_head_min (l : List ℚ) (h : l ≠ []) :
    ∃ m, (sortQ l).head? = some m ∧ m ∈ l ∧ ∀ x ∈ l, m ≤ x := by
  induction l with
  | nil => exact absurd rfl h
  | cons a bs ih =>
    by_cases hbs : bs = []
    · subst hbs
      refine ⟨a, rfl, List.mem_singleton_self a, fun x hx => ?_⟩
      rw [List.mem_singleton] at hx
      exact hx ▸ le_refl a
    · obtain ⟨m, hm_head, hm_mem, hm_le⟩ := ih hbs
      obtain ⟨t, ht⟩ : ∃ t, sortQ bs = m :: t := by
        cases hs : sortQ bs with
        | nil => rw [hs] at hm_head; cases hm_head
        | cons x xs =>
          rw [hs] at hm_head
          simp only [List.head?_cons, Option.some.injEq] at hm_head
          exact ⟨xs, by rw [hm_head]⟩
      have hsort : sortQ (a :: bs) = insertQ a (m :: t) := by
        simp only [sortQ, List.foldr_cons]
        rw [show List.foldr insertQ [] bs = sortQ bs from rfl, ht]
      by_cases hab : a - m < 0
      · refine ⟨a, ?_, List.mem_cons_self a bs, ?_⟩
        · rw [hsort]
          simp [insertQ, hab]
        · intro x hx
          rcases List.mem_cons.mp hx with h1 | h2
          · exact h1 ▸ le_refl a
          · exact le_of_lt (lt_of_lt_of_le (by linarith) (hm_le x h2))
      · refine ⟨m, ?_, List.mem_cons_of_mem a hm_mem, ?_⟩
        · rw [hsort]
          simp [insertQ, hab]
        · intro x hx
          rcases List.mem_cons.mp hx with h1 | h2
          · subst h1
            linarith [not_lt.mp hab]
          · exact hm_le x h2

theorem map_jdate_eq_map_num (l : List (Option ℚ)) (h : ∀ x ∈ l, x.isSome) :
    l.map jdate = (l.filterMap id).map JNum.num := by
  induction l with
  | nil => rfl
  | cons x xs ih =>
    cases x with
    | none => exact absurd (h none (List.mem_cons_self _ _)) (by simp)
    | some t =>
      simp only [List.map_cons, List.filterMap_cons, id, jdate]
      rw [ih (fun y hy => h y (List.mem_cons_of_mem _ hy))]

/-- C5: when every non-author comment and review carries its timestamp, the
first-response time is the minimum timestamp over the union of non-author
review comments and non-author formal reviews, and is the invalid (`NaN`)
time when that union is empty. -/
theorem firstCommentedAt_spec (p : Pull) (cs : List Comment) (rvs : List Review)
    (hc : ∀ c ∈ cs.filter (fun c => c.user_login != p.user_login), c.created_at.isSome)
    (hr : ∀ r ∈ rvs.filter (fun r => r.user_login != p.user_login), r.submitted_at.isSome) :
    (externalResponseTimes p cs rvs = [] → firstCommentedAt p cs rvs = .nan) ∧
    (∀ m, m ∈ externalResponseTimes p cs rvs →
      (∀ x ∈ externalResponseTimes p cs rvs, m ≤ x) →
      firstCommentedAt p cs rvs = .num m) := by
  have hpart1 : (cs.filter (fun c => c.user_login != p.user_login)).map
        (fun c => jdate c.created_at) =
      ((cs.filter (fun c => c.user_login != p.user_login)).filterMap Comment.created_at).map
        JNum.num := by
    have h1 : (cs.filter (fun c => c.user_login != p.user_login)).map
        (fun c => jdate c.created_at) =
        ((cs.filter (fun c => c.user_login != p.user_login)).map Comment.created_at).map
          jdate := by
      rw [List.map_map]
      rfl
    rw [h1, map_jdate_eq_map_num _ (by
      intro x hx
      rcases List.mem_map.mp hx with ⟨c, hcm, rfl⟩
      exact hc c hcm), List.filterMap_map]
    rfl
  have hpart2 : (rvs.filter (fun r => r.user_login != p.user_login)).map
        (fun r => jdate r.submitted_at) =
      ((rvs.filter (fun r => r.user_login != p.user_login)).filterMap Review.submitted_at).map
        JNum.num := by
    have h1 : (rvs.filter (fun r => r.user_login != p.user_login)).map
        (fun r => jdate r.submitted_at) =
        ((rvs.filter (fun r => r.user_login != p.user_login)).map Review.submitted_at).map
          jdate := by
      rw [List.map_map]
      rfl
    rw [h1, map_jdate_eq_map_num _ (by
      intro x hx
      rcases List.mem_map.mp hx with ⟨r, hrm, rfl⟩
      exact hr r hrm), List.filterMap_map]
    rfl
  have hfca : firstCommentedAt p cs rvs =
      ((sortQ (externalResponseTimes p cs rvs)).map JNum.num).headD .nan := by
    unfold firstCommentedAt externalResponseTimes
    rw [hpart1, hpart2, ← List.map_append, sortJS_map_num]
  constructor
  · intro hempty
    rw [hfca, hempty]
    rfl
  · intro m hmem hmin
    obtain ⟨m2, h_head, h_mem, h_le⟩ :=
      sortQ_head_min (externalResponseTimes p cs rvs) (List.ne_nil_of_mem hmem)
    have hm2 : m2 = m := le_antisymm (h_le m hmem) (hmin m2 h_mem)
    obtain ⟨t, ht⟩ : ∃ t, sortQ (externalResponseTimes p cs rvs) = m2 :: t := by
      cases hs : sortQ (externalResponseTimes p cs rvs) with
      | nil => rw [hs] at h_head; cases h_head
      | cons x xs =>
        rw [hs] at h_head
        simp only [List.head?_cons, Option.some.injEq] at h_head
        exact ⟨xs, by rw [h_head]⟩
    rw [hfca, ht, hm2]
    rfl

theorem firstCommentedAt_spec_witness :
    firstCommentedAt pullA [commentLate, commentEarly] [] = .num 300000 :=
  (firstCommentedAt_spec pullA [commentLate, commentEarly] []
      (by decide) (by decide)).2 300000 (by decide)
    (by decide)

end MeasureReviewTime
